import Mathlib

/-!
Shallow embedding of `src/commands/dust.ts` (dust token management:
scan, classify, clean) and proofs of the specification claims.

Conventions of the embedding:
* account identifiers (`PublicKey`) and mints are opaque strings;
* token balances (`bigint` in the source, u64 token amounts on chain)
  are `Nat`;
* the floating point expression `Number(balance) / Math.pow(10, decimals)`
  is modelled exactly as a rational number `(balance : ℚ) / 10 ^ decimals`;
* recovered SOL amounts are tracked in lamports (the `/ 1e9` in the source
  is display scaling only);
* external collaborators (ledger client, metadata service, terminal,
  keypair decoding primitives, transaction submission) are oracles passed
  in as explicit parameters.
-/

namespace Dust

/-- `TokenMetadata` record from the source (`name`, `symbol`, `logoURI`). -/
structure TokenMetadata where
  name : String
  symbol : String
  logoURI : Option String := none
deriving Repr, DecidableEq

/-- The four risk levels of the source's `riskLevel` union type. -/
inductive RiskLevel
  | LOW
  | MEDIUM
  | HIGH
  | UNKNOWN
deriving Repr, DecidableEq

/-- `TokenAccount` record from the source. `balance` is the raw amount in
atomic units; `isCloseable` is the stored flag (set to `balance == 0` at
construction time by `scanDust`/`cleanDust`). -/
structure TokenAccount where
  pubkey : String
  mint : String
  balance : Nat
  decimals : Nat
  isCloseable : Bool
  metadata : Option TokenMetadata
  riskLevel : RiskLevel
  riskReason : String
deriving Repr, DecidableEq

/-- `RENT_EXEMPT_LAMPORTS` constant from the source. -/
def RENT_EXEMPT_LAMPORTS : Nat := 2039280

/-- `SPAM_INDICATORS` list from the source. -/
def SPAM_INDICATORS : List String :=
  ["airdrop", "free", "claim", "reward", "bonus", "gift",
   "winner", "congratulation", "lucky", "prize"]

/-- `charsLeads sub s` holds when `sub` occurs at the very start of `s`
(character-list version of a starts-with test). -/
def charsLeads : List Char → List Char → Bool
  | [], _ => true
  | _ :: _, [] => false
  | a :: as, b :: bs => a == b && charsLeads as bs

/-- `charsHas sub s` holds when `sub` occurs contiguously somewhere in `s`. -/
def charsHas (sub : List Char) : List Char → Bool
  | [] => sub.isEmpty
  | b :: bs => charsLeads sub (b :: bs) || charsHas sub bs

/-- JavaScript `s.includes(sub)`: contiguous substring test. -/
def strIncludes (s sub : String) : Bool :=
  charsHas sub.data s.data

/-- JavaScript `s.toLowerCase()` for the ASCII strings involved here. -/
def strLower (s : String) : String :=
  ⟨s.data.map Char.toLower⟩

/-- `classifyTokenRisk` from the source, translated clause by clause.
The spam-indicator loop with early `return` becomes `List.any`; the float
division becomes exact rational division. Returns `(level, reason)`. -/
def classifyTokenRisk (balance : Nat) (decimals : Nat)
    (metadata : Option TokenMetadata) : RiskLevel × String :=
  let name := (metadata.map fun m => strLower m.name).getD ""
  let symbol := (metadata.map fun m => strLower m.symbol).getD ""
  if SPAM_INDICATORS.any fun indicator =>
      strIncludes name indicator || strIncludes symbol indicator then
    (.HIGH, "Suspicious name (potential scam/airdrop)")
  else
    let bal : ℚ := (balance : ℚ) / 10 ^ decimals
    if 0 < bal ∧ bal < 1 / 10000 then
      (.HIGH, "Micro balance (likely tracking dust)")
    else if balance = 0 then
      (.LOW, "Empty account - safe to close")
    else if bal < 1 then
      (.MEDIUM, "Small balance - review before closing")
    else
      (.UNKNOWN, "Unable to classify")

/-- The spec's five-rule reference classifier, written from the claim's
wording: rules evaluated in order with first match winning.
Rule 1: spam-indicator substring in lowercased name or symbol, HIGH.
Rule 2: 0 < rawBalance/10^decimals < 0.0001, HIGH.
Rule 3: rawBalance = 0, LOW.
Rule 4: normalized balance < 1, MEDIUM.
Rule 5: UNKNOWN. -/
def classifyRef (balance : Nat) (decimals : Nat)
    (metadata : Option TokenMetadata) : RiskLevel :=
  if SPAM_INDICATORS.any fun indicator =>
      strIncludes ((metadata.map fun m => strLower m.name).getD "") indicator
        || strIncludes ((metadata.map fun m => strLower m.symbol).getD "") indicator then
    .HIGH
  else if 0 < ((balance : ℚ) / 10 ^ decimals) ∧
      ((balance : ℚ) / 10 ^ decimals) < 1 / 10000 then
    .HIGH
  else if balance = 0 then
    .LOW
  else if ((balance : ℚ) / 10 ^ decimals) < 1 then
    .MEDIUM
  else
    .UNKNOWN

/-- The inline `riskOrder` priority table of `scanDust`:
`{ HIGH: 0, MEDIUM: 1, LOW: 2, UNKNOWN: 3 }`. -/
def riskOrder : RiskLevel → Nat
  | .HIGH => 0
  | .MEDIUM => 1
  | .LOW => 2
  | .UNKNOWN => 3

/-- The comparator of `accounts.sort((a, b) => riskOrder[a.riskLevel] - riskOrder[b.riskLevel])`
as a boolean `le` relation (JavaScript `Array.prototype.sort` is a stable
sort consistent with this relation). -/
def accLE (a b : TokenAccount) : Bool :=
  decide (riskOrder a.riskLevel ≤ riskOrder b.riskLevel)

/-- The stable sort performed by `scanDust`. -/
def sortAccounts (accounts : List TokenAccount) : List TokenAccount :=
  accounts.mergeSort accLE

/-- One raw entry of the ledger query result
(`connection.getParsedTokenAccountsByOwner`): pubkey, mint, amount,
decimals. -/
structure RawAccount where
  pubkey : String
  mint : String
  balance : Nat
  decimals : Nat
deriving Repr, DecidableEq

/-- The `TokenAccount` construction both `scanDust` and `cleanDust`
perform on each raw ledger entry: metadata looked up by mint,
`isCloseable` set to `balance === 0n`, risk from `classifyTokenRisk`. -/
def mkTokenAccount (lookup : String → Option TokenMetadata)
    (r : RawAccount) : TokenAccount :=
  let metadata := lookup r.mint
  let risk := classifyTokenRisk r.balance r.decimals metadata
  { pubkey := r.pubkey
    mint := r.mint
    balance := r.balance
    decimals := r.decimals
    isCloseable := r.balance == 0
    metadata := metadata
    riskLevel := risk.1
    riskReason := risk.2 }

/-- The account list produced by the `scan` operation (`scanDust`):
construct every account, then stably sort by risk priority. -/
def scanAccounts (lookup : String → Option TokenMetadata)
    (raws : List RawAccount) : List TokenAccount :=
  sortAccounts (raws.map (mkTokenAccount lookup))

/-- `cleanDust`: `accounts.filter((a) => a.isCloseable)`. -/
def closeableOf (accounts : List TokenAccount) : List TokenAccount :=
  accounts.filter (·.isCloseable)

/-- `cleanDust`: the `burnable` list — nonzero-balance HIGH/MEDIUM
accounts when the `--burn` flag is set, `[]` otherwise. -/
def burnableOf (burn : Bool) (accounts : List TokenAccount) : List TokenAccount :=
  if burn then
    accounts.filter fun a =>
      !a.isCloseable && (a.riskLevel == .HIGH || a.riskLevel == .MEDIUM)
  else []

/-- `cleanDust`: `toProcess = [...closeable, ...burnable]`. -/
def toProcessOf (burn : Bool) (accounts : List TokenAccount) : List TokenAccount :=
  closeableOf accounts ++ burnableOf burn accounts

/-- The two SPL-token instructions the cleaner emits.
`burn acct mint authority amount` is `createBurnInstruction`;
`close acct dest authority` is `createCloseAccountInstruction`. -/
inductive Instruction
  | burn (account : String) (mint : String) (authority : String) (amount : Nat)
  | close (account : String) (dest : String) (authority : String)
deriving Repr, DecidableEq

/-- A transaction is the ordered list of instructions added to it. -/
abbrev Tx := List Instruction

/-- The per-holding instruction sequence built identically by
`interactiveClean` and `batchProcess`: a burn of the full balance when
`balance > 0n`, then a close with the keypair's public key as both
destination and authority. `owner` is `keypair.publicKey`. -/
def buildHoldingIxs (owner : String) (a : TokenAccount) : List Instruction :=
  (if 0 < a.balance then [.burn a.pubkey a.mint owner a.balance] else [])
    ++ [.close a.pubkey owner owner]

/-- The chunking loop of `batchProcess`
(`for (i = 0; i < accounts.length; i += batchSize) slice(i, i + batchSize)`),
as successive `take`/`drop`. The source fixes `batchSize = 5`, so `k ≥ 1`
always holds at the call sites. -/
def partitionChunks (k : Nat) : List α → List (List α)
  | [] => []
  | a :: rest =>
    (a :: rest.take (k - 1)) :: partitionChunks k (rest.drop (k - 1))
termination_by l => l.length
decreasing_by simp; omega

/-- Run statistics of `batchProcess`: `totalClosed`, `totalRecovered`
(tracked in lamports), and the recorded outcome of every attempted chunk
submission (`true` = confirmed, `false` = failed). -/
structure BatchStats where
  totalClosed : Nat
  totalRecoveredLamports : Nat
  chunkOutcomes : List Bool
deriving Repr, DecidableEq

/-- The chunk loop of `batchProcess`: chunk `i`'s submission outcome is
`submitOk i`; a failure is recorded and the loop continues; totals
accumulate only on success. -/
def batchRunGo (submitOk : Nat → Bool) : Nat → List (List TokenAccount) → BatchStats
  | _, [] => ⟨0, 0, []⟩
  | i, chunk :: rest =>
    let tail := batchRunGo submitOk (i + 1) rest
    if submitOk i then
      ⟨chunk.length + tail.totalClosed,
       chunk.length * RENT_EXEMPT_LAMPORTS + tail.totalRecoveredLamports,
       true :: tail.chunkOutcomes⟩
    else
      ⟨tail.totalClosed, tail.totalRecoveredLamports, false :: tail.chunkOutcomes⟩

/-- `batchProcess`: partition into chunks of 5 and run the chunk loop. -/
def batchProcess (submitOk : Nat → Bool)
    (accounts : List TokenAccount) : BatchStats :=
  batchRunGo submitOk 0 (partitionChunks 5 accounts)

/-- The transactions `batchProcess` submits: one per chunk, containing
every chunk member's instructions concatenated. All chunks are attempted
regardless of earlier failures. -/
def batchTxs (owner : String) (accounts : List TokenAccount) : List Tx :=
  (partitionChunks 5 accounts).map fun chunk =>
    chunk.flatMap (buildHoldingIxs owner)

/-- The prompt loop of `interactiveClean`, tracking the source's two
mutable flags `skipRemaining` and `processAll`. An input is consumed
(lowercased) only when neither flag is set; the returned list records,
per account in order, whether it was processed. -/
def interactiveGo : List TokenAccount → List String → Bool → Bool → List Bool
  | [], _, _, _ => []
  | _ :: rest, inputs, skipRemaining, processAll =>
    if processAll then
      true :: interactiveGo rest inputs skipRemaining processAll
    else if !skipRemaining then
      let ans := strLower (inputs.headD "")
      let inputs' := inputs.tail
      if ans == "y" || ans == "yes" then
        true :: interactiveGo rest inputs' skipRemaining processAll
      else if ans == "a" || ans == "all" then
        true :: interactiveGo rest inputs' skipRemaining true
      else if ans == "q" || ans == "quit" then
        false :: interactiveGo rest inputs' true processAll
      else
        false :: interactiveGo rest inputs' skipRemaining processAll
    else
      false :: interactiveGo rest inputs skipRemaining processAll

/-- `interactiveClean` entered with both flags clear. -/
def interactiveClean (accounts : List TokenAccount)
    (inputs : List String) : List Bool :=
  interactiveGo accounts inputs false false

/-- The transactions `interactiveClean` submits: one independent
transaction per processed account. -/
def interactiveTxs (owner : String) (accounts : List TokenAccount)
    (inputs : List String) : List Tx :=
  ((accounts.zip (interactiveClean accounts inputs)).filterMap fun p =>
    if p.2 then some (buildHoldingIxs owner p.1) else none)

/-- The three states of the spec's interactive state machine. -/
inductive IMode
  | ASK
  | AUTO_ALL
  | SKIP_ALL
deriving Repr, DecidableEq

/-- Modelled from the spec: the InteractiveProcessor as the spec's
explicit three-state machine (section 4.6): in `ASK` the next input is
consumed; `yes` processes and stays in `ASK`, `all` processes and moves
to `AUTO_ALL`, `quit` skips the current holding and moves to `SKIP_ALL`,
anything else skips only the current holding; `AUTO_ALL` processes and
`SKIP_ALL` skips every remaining holding without consuming input, and
iteration always completes. -/
def specMachine : List TokenAccount → List String → IMode → List Bool
  | [], _, _ => []
  | _ :: rest, inputs, .AUTO_ALL => true :: specMachine rest inputs .AUTO_ALL
  | _ :: rest, inputs, .SKIP_ALL => false :: specMachine rest inputs .SKIP_ALL
  | _ :: rest, inputs, .ASK =>
    let ans := strLower (inputs.headD "")
    let inputs' := inputs.tail
    if ans == "y" || ans == "yes" then
      true :: specMachine rest inputs' .ASK
    else if ans == "a" || ans == "all" then
      true :: specMachine rest inputs' .AUTO_ALL
    else if ans == "q" || ans == "quit" then
      false :: specMachine rest inputs' .SKIP_ALL
    else
      false :: specMachine rest inputs' .ASK

/-- A loaded signing credential; only its derived public identity is
relevant to the model. -/
structure KeypairM where
  publicKey : String
deriving Repr, DecidableEq

/-- The two errors `loadKeypair` can throw. -/
inductive KeypairError
  | fileNotFound
  | invalidKeypairFormat
deriving Repr, DecidableEq

/-- `loadKeypair` from the source. The external decoding primitives are
oracles: `jsonParseBytes` is `JSON.parse` into a byte array,
`b58decode` is `bs58.decode`, `fromSecretKey` is
`Keypair.fromSecretKey` (`none` = the primitive throws). `content` is
the trimmed file content, `none` when the file does not exist. The two
encodings are attempted in order; a failure of either stage of the
first attempt falls through to the second. -/
def loadKeypair (jsonParseBytes : String → Option (List Nat))
    (b58decode : String → Option (List Nat))
    (fromSecretKey : List Nat → Option KeypairM)
    (content : Option String) : Except KeypairError KeypairM :=
  match content with
  | none => .error .fileNotFound
  | some text =>
    match (jsonParseBytes text).bind fromSecretKey with
    | some kp => .ok kp
    | none =>
      match (b58decode text).bind fromSecretKey with
      | some kp => .ok kp
      | none => .error .invalidKeypairFormat

/-- The flags of the `clean` command. -/
structure CleanOptions where
  keypairPath : Option String
  yes : Bool
  dryRun : Bool
  interactive : Bool
  burn : Bool
deriving Repr, DecidableEq

/-- The observable outcome of one `cleanDust` run. The fatal branches
(`keypairMissing`, `keypairLoadError`, `authMismatch`) correspond to
`process.exit(1)`. -/
inductive CleanResult
  | noDust
  | dryRunPlan (planned : List TokenAccount)
  | keypairMissing
  | keypairLoadError (e : KeypairError)
  | authMismatch (keypairPub wallet : String)
  | declined
  | interactiveDone (flags : List Bool)
  | batchDone (stats : BatchStats)
deriving Repr, DecidableEq

/-- `cleanDust` from the source, after the ledger query: build the
account list, filter to `toProcess`, then walk the branch ladder
(no dust / dry run / missing keypair / keypair load / identity gate /
interactive / confirmation / batch). Returns the outcome together with
the list of every transaction whose submission was attempted. -/
def cleanDust (wallet : String) (opts : CleanOptions)
    (lookup : String → Option TokenMetadata)
    (raws : List RawAccount)
    (keypairOf : String → Except KeypairError KeypairM)
    (confirmAnswer : String)
    (inputs : List String)
    (submitOk : Nat → Bool) : CleanResult × List Tx :=
  let accounts := raws.map (mkTokenAccount lookup)
  let toProcess := toProcessOf opts.burn accounts
  if toProcess.isEmpty then (.noDust, [])
  else if opts.dryRun then (.dryRunPlan toProcess, [])
  else
    match opts.keypairPath with
    | none => (.keypairMissing, [])
    | some kpath =>
      match keypairOf kpath with
      | .error e => (.keypairLoadError e, [])
      | .ok kp =>
        if kp.publicKey ≠ wallet then
          (.authMismatch kp.publicKey wallet, [])
        else if opts.interactive then
          (.interactiveDone (interactiveClean toProcess inputs),
           interactiveTxs kp.publicKey toProcess inputs)
        else if !opts.yes && strLower confirmAnswer ≠ "y" then
          (.declined, [])
        else
          (.batchDone (batchProcess submitOk toProcess),
           batchTxs kp.publicKey toProcess)

/-- The spam test of `classifyTokenRisk` rule 1, factored out for the
statements: some spam indicator occurs in the lowercased metadata name
or symbol (absent metadata yields the empty strings and never matches). -/
def spamHit (metadata : Option TokenMetadata) : Bool :=
  SPAM_INDICATORS.any fun indicator =>
    strIncludes ((metadata.map fun m => strLower m.name).getD "") indicator
      || strIncludes ((metadata.map fun m => strLower m.symbol).getD "") indicator

/-- A fixed all-default account used to instantiate list-shape examples. -/
def dummyAccount : TokenAccount :=
  { pubkey := "acct"
    mint := "mint"
    balance := 0
    decimals := 6
    isCloseable := true
    metadata := none
    riskLevel := .LOW
    riskReason := "Empty account - safe to close" }

/-- Example metadata carrying a spam indicator in its name. -/
def spamMeta : TokenMetadata :=
  { name := "Free Airdrop", symbol := "FREE", logoURI := none }

/-- Example account with a nonzero balance (7 atomic units). -/
def acct7 : TokenAccount :=
  { dummyAccount with balance := 7, isCloseable := false }

/-- C2: `classifyTokenRisk` is a pure total function equal to the
five-rule reference definition `classifyRef` evaluated in order with
first match winning; a spam-indicator match yields HIGH even when the
raw balance is zero (rule 1 overrides rule 3); and a nonempty reason
string is returned in every case. -/
theorem claim_C2 (balance decimals : Nat) (metadata : Option TokenMetadata) :
    (classifyTokenRisk balance decimals metadata).1
        = classifyRef balance decimals metadata ∧
    (classifyTokenRisk balance decimals metadata).2 ≠ "" ∧
    (spamHit metadata = true →
      classifyTokenRisk balance decimals metadata
        = (.HIGH, "Suspicious name (potential scam/airdrop)")) := by
  refine ⟨?_, ?_, ?_⟩
  · simp only [classifyTokenRisk, classifyRef]
    split_ifs <;> rfl
  · simp only [classifyTokenRisk]
    split_ifs <;> decide
  · intro h
    simp only [classifyTokenRisk]
    rw [if_pos]
    exact h

/-- Witness for C2 at concrete inputs: a zero-balance spam-named token
classifies HIGH with the spam reason, agrees with the reference
classifier, and carries a nonempty reason. -/
theorem claim_C2_witness :
    (classifyTokenRisk 0 6 (some spamMeta)).1 = classifyRef 0 6 (some spamMeta) ∧
    (classifyTokenRisk 0 6 (some spamMeta)).2 ≠ "" ∧
    classifyTokenRisk 0 6 (some spamMeta)
      = (.HIGH, "Suspicious name (potential scam/airdrop)") := by
  obtain ⟨h1, h2, h3⟩ := claim_C2 0 6 (some spamMeta)
  exact ⟨h1, h2, h3 (by decide)⟩

/-- C4: for every holding the builder emits, when the raw balance is
positive, exactly one burn of exactly the raw balance of the holding's
mint from the holding's address authorized by the credential, followed
by exactly one close whose destination and authority are both the
credential's public address; when the raw balance is zero, only the
close instruction; any burn instruction present burns the full balance
(never partial). -/
theorem claim_C4 (owner : String) (a : TokenAccount) :
    (0 < a.balance →
      buildHoldingIxs owner a
        = [.burn a.pubkey a.mint owner a.balance, .close a.pubkey owner owner]) ∧
    (a.balance = 0 →
      buildHoldingIxs owner a = [.close a.pubkey owner owner]) ∧
    (∀ acct mint authority amount,
      Instruction.burn acct mint authority amount ∈ buildHoldingIxs owner a →
        amount = a.balance) := by
  refine ⟨fun h => ?_, fun h => ?_, fun acct mint authority amount hmem => ?_⟩
  · simp [buildHoldingIxs, h]
  · simp [buildHoldingIxs, h]
  · simp only [buildHoldingIxs] at hmem
    rcases List.mem_append.mp hmem with h | h
    · split_ifs at h with hb
      · simp only [List.mem_singleton] at h
        cases h
        rfl
      · simp at h
    · simp at h

/-- Witness for C4: with balance 7 the builder emits the full burn then
the close; with balance 0 only the close. -/
theorem claim_C4_witness :
    buildHoldingIxs "W" acct7
      = [.burn "acct" "mint" "W" 7, .close "acct" "W" "W"] ∧
    buildHoldingIxs "W" dummyAccount = [.close "acct" "W" "W"] :=
  ⟨(claim_C4 "W" acct7).1 (by decide), (claim_C4 "W" dummyAccount).2.1 rfl⟩

/-- Helper: total chunk content equals the input length. -/
theorem partitionChunks_sum (k : Nat) (l : List TokenAccount) :
    ((partitionChunks k l).map List.length).sum = l.length := by
  induction l using partitionChunks.induct k with
  | case1 => simp [partitionChunks]
  | case2 a rest ih =>
    simp only [partitionChunks, List.map_cons, List.sum_cons, ih,
      List.length_cons, List.length_take, List.length_drop]
    omega

/-- Helper: chunk count is the ceiling of `length / 5`. -/
theorem partitionChunks_count (l : List TokenAccount) :
    (partitionChunks 5 l).length = (l.length + 4) / 5 := by
  induction l using partitionChunks.induct 5 with
  | case1 => simp [partitionChunks]
  | case2 a rest ih =>
    simp only [partitionChunks, List.length_cons, ih, List.length_drop]
    omega

/-- Helper: the chunk list is empty exactly for empty input. -/
theorem partitionChunks_nil_iff (k : Nat) (l : List TokenAccount) :
    partitionChunks k l = [] ↔ l = [] := by
  cases l <;> simp [partitionChunks]

/-- Helper: every chunk is nonempty and holds at most 5 accounts. -/
theorem partitionChunks_mem_size (l : List TokenAccount) :
    ∀ c ∈ partitionChunks 5 l, 0 < c.length ∧ c.length ≤ 5 := by
  induction l using partitionChunks.induct 5 with
  | case1 => simp [partitionChunks]
  | case2 a rest ih =>
    intro c hc
    rw [partitionChunks] at hc
    rcases List.mem_cons.mp hc with h | h
    · subst h
      simp only [List.length_cons, List.length_take]
      omega
    · exact ih c h

/-- Helper: every chunk except possibly the last holds exactly 5. -/
theorem partitionChunks_dropLast_size (l : List TokenAccount) :
    ∀ c ∈ (partitionChunks 5 l).dropLast, c.length = 5 := by
  induction l using partitionChunks.induct 5 with
  | case1 => simp [partitionChunks]
  | case2 a rest ih =>
    intro c hc
    rw [partitionChunks] at hc
    by_cases h : rest.drop 4 = []
    · rw [(partitionChunks_nil_iff 5 _).mpr h] at hc
      simp at hc
    · have hne : partitionChunks 5 (rest.drop 4) ≠ [] := by
        simpa [partitionChunks_nil_iff] using h
      rw [List.dropLast_cons_of_ne_nil hne] at hc
      rcases List.mem_cons.mp hc with h2 | h2
      · subst h2
        have : 4 < rest.length := by
          by_contra hle
          exact h (List.drop_eq_nil_of_le (by omega))
        simp only [List.length_cons, List.length_take]
        omega
      · exact ih c h2

/-- C7: partitioning `N` holdings with `maxPerTransaction = 5` yields
exactly `ceil(N / 5)` chunks whose sizes sum to `N`; every chunk except
possibly the last has size exactly 5 and the last may be smaller (every
chunk has size between 1 and 5); 13 holdings yield sizes `[5, 5, 3]`. -/
theorem claim_C7 (accounts : List TokenAccount) :
    (partitionChunks 5 accounts).length = (accounts.length + 4) / 5 ∧
    ((partitionChunks 5 accounts).map List.length).sum = accounts.length ∧
    (∀ c ∈ (partitionChunks 5 accounts).dropLast, c.length = 5) ∧
    (∀ c ∈ partitionChunks 5 accounts, 0 < c.length ∧ c.length ≤ 5) ∧
    (partitionChunks 5 (List.replicate 13 dummyAccount)).map List.length
      = [5, 5, 3] := by
  refine ⟨partitionChunks_count accounts, partitionChunks_sum 5 accounts,
    partitionChunks_dropLast_size accounts, partitionChunks_mem_size accounts, ?_⟩
  simp [partitionChunks, List.replicate]

/-- Witness for C7 at 13 holdings: 3 chunks, sizes summing to 13, the
non-final chunks of size exactly 5. -/
theorem claim_C7_witness :
    (partitionChunks 5 (List.replicate 13 dummyAccount)).length = (13 + 4) / 5 ∧
    ((partitionChunks 5 (List.replicate 13 dummyAccount)).map List.length).sum = 13 ∧
    List.replicate 5 dummyAccount
        ∈ (partitionChunks 5 (List.replicate 13 dummyAccount)).dropLast ∧
    (List.replicate 5 dummyAccount).length = 5 := by
  obtain ⟨h1, h2, h3, _, _⟩ := claim_C7 (List.replicate 13 dummyAccount)
  have hmem : List.replicate 5 dummyAccount
      ∈ (partitionChunks 5 (List.replicate 13 dummyAccount)).dropLast := by
    simp [partitionChunks, List.replicate]
  refine ⟨by simpa using h1, by simpa using h2, hmem, h3 _ hmem⟩

/-- Helper: the sort comparator is transitive. -/
theorem accLE_trans : ∀ a b c : TokenAccount, accLE a b → accLE b c → accLE a c := by
  intro a b c hab hbc
  simp only [accLE, decide_eq_true_eq] at *
  omega

/-- Helper: the sort comparator is total. -/
theorem accLE_total : ∀ a b : TokenAccount, accLE a b || accLE b a := by
  intro a b
  simp only [accLE]
  rcases Nat.le_total (riskOrder a.riskLevel) (riskOrder b.riskLevel) with h | h <;>
    simp [h]

/-- Helper: sorting permutes the account list. -/
theorem sortAccounts_perm (l : List TokenAccount) : (sortAccounts l).Perm l :=
  List.mergeSort_perm l accLE

/-- Helper: the sorted output is ascending in the priority table. -/
theorem sortAccounts_sorted (l : List TokenAccount) :
    (sortAccounts l).Pairwise
      fun a b => riskOrder a.riskLevel ≤ riskOrder b.riskLevel := by
  have h := List.sorted_mergeSort accLE_trans accLE_total l
  exact h.imp fun hab => by simpa [accLE] using hab

/-- Helper (stability): filtering by any predicate on which the
comparator is reflexive commutes with the sort. -/
theorem sortAccounts_filter_eq (p : TokenAccount → Bool)
    (hp : ∀ a b, p a = true → p b = true → accLE a b = true)
    (l : List TokenAccount) :
    (sortAccounts l).filter p = l.filter p := by
  have hpw : (l.filter p).Pairwise fun a b => accLE a b = true :=
    List.pairwise_of_forall_mem_list fun a ha b hb =>
      hp a b (List.of_mem_filter ha) (List.of_mem_filter hb)
  have hsub : (l.filter p).Sublist (sortAccounts l) :=
    List.sublist_mergeSort accLE_trans accLE_total hpw (List.filter_sublist l)
  have hsub2 : (l.filter p).Sublist ((sortAccounts l).filter p) := by
    have h := hsub.filter p
    simpa only [List.filter_filter, Bool.and_self] using h
  have hperm : ((sortAccounts l).filter p).Perm (l.filter p) :=
    (sortAccounts_perm l).filter p
  exact ((hsub2.eq_of_length hperm.length_eq.symm)).symm

/-- Example accounts A, B, C, D with risk tiers MEDIUM, HIGH, LOW, HIGH. -/
def exA : TokenAccount := { dummyAccount with pubkey := "A", riskLevel := .MEDIUM }

/-- Example account B (HIGH). -/
def exB : TokenAccount := { dummyAccount with pubkey := "B", riskLevel := .HIGH }

/-- Example account C (LOW). -/
def exC : TokenAccount := { dummyAccount with pubkey := "C", riskLevel := .LOW }

/-- Example account D (HIGH). -/
def exD : TokenAccount := { dummyAccount with pubkey := "D", riskLevel := .HIGH }

/-- C3: the scan output is sorted ascending by the priority table
`{HIGH:0, MEDIUM:1, LOW:2, UNKNOWN:3}`; the sort is stable — the
holdings of each risk tier appear in the same relative order as in the
ledger-query result (the constructed account list); it is a permutation
of the input; and tiers `[MEDIUM, HIGH, LOW, HIGH]` labeled A, B, C, D
sort to `[B, D, A, C]`. -/
theorem claim_C3 (lookup : String → Option TokenMetadata) (raws : List RawAccount) :
    (scanAccounts lookup raws).Pairwise
      (fun a b => riskOrder a.riskLevel ≤ riskOrder b.riskLevel) ∧
    (∀ lv : RiskLevel,
      (scanAccounts lookup raws).filter (fun a => a.riskLevel == lv)
        = (raws.map (mkTokenAccount lookup)).filter (fun a => a.riskLevel == lv)) ∧
    (scanAccounts lookup raws).Perm (raws.map (mkTokenAccount lookup)) ∧
    sortAccounts [exA, exB, exC, exD] = [exB, exD, exA, exC] := by
  refine ⟨sortAccounts_sorted _, fun lv => ?_, sortAccounts_perm _, ?_⟩
  · exact sortAccounts_filter_eq _
      (fun a b ha hb => by
        simp only [beq_iff_eq] at ha hb
        simp [accLE, ha, hb]) _
  · simp [sortAccounts, List.mergeSort, List.splitInTwo, List.merge,
      accLE, exA, exB, exC, exD, riskOrder, dummyAccount]

/-- Helper: one step of the batch chunk loop. -/
theorem batchRunGo_cons (f : Nat → Bool) (i : Nat) (c : List TokenAccount)
    (rest : List (List TokenAccount)) :
    batchRunGo f i (c :: rest)
      = let tail := batchRunGo f (i + 1) rest
        ⟨(if f i then c.length else 0) + tail.totalClosed,
         (if f i then c.length * RENT_EXEMPT_LAMPORTS else 0) + tail.totalRecoveredLamports,
         f i :: tail.chunkOutcomes⟩ := by
  cases h : f i <;> simp [batchRunGo, h]

/-- Helper: the loop records one outcome per chunk, in order, equal to
that chunk's submission result — so every chunk is attempted. -/
theorem batchRunGo_outcomes (f : Nat → Bool) (chunks : List (List TokenAccount)) :
    ∀ i, (batchRunGo f i chunks).chunkOutcomes
      = (List.range chunks.length).map fun j => f (i + j) := by
  induction chunks with
  | nil => intro i; simp [batchRunGo]
  | cons c rest ih =>
    intro i
    rw [batchRunGo_cons]
    simp only [List.length_cons, List.range_succ_eq_map, List.map_cons, List.map_map]
    refine congrArg₂ List.cons (by simp) ?_
    rw [ih (i + 1)]
    refine List.map_congr_left fun j hj => ?_
    simp only [Function.comp]
    exact congrArg f (by omega)

/-- Helper: `totalClosed` sums the sizes of exactly the confirmed chunks. -/
theorem batchRunGo_closed (f : Nat → Bool) (chunks : List (List TokenAccount)) :
    ∀ i, (batchRunGo f i chunks).totalClosed
      = (((chunks.enumFrom i).filter fun p => f p.1).map fun p => p.2.length).sum := by
  induction chunks with
  | nil => intro i; simp [batchRunGo]
  | cons c rest ih =>
    intro i
    rw [batchRunGo_cons]
    cases h : f i <;> simp [List.enumFrom, h, ih (i + 1)]

/-- Helper: recovered lamports are `totalClosed` times the reserve constant. -/
theorem batchRunGo_recovered (f : Nat → Bool) (chunks : List (List TokenAccount)) :
    ∀ i, (batchRunGo f i chunks).totalRecoveredLamports
      = (batchRunGo f i chunks).totalClosed * RENT_EXEMPT_LAMPORTS := by
  induction chunks with
  | nil => intro i; simp [batchRunGo]
  | cons c rest ih =>
    intro i
    rw [batchRunGo_cons]
    cases h : f i <;> simp [h, ih (i + 1), Nat.add_mul]

/-- C5: in batch processing every chunk is attempted and has its
submission outcome recorded (a chunk's failure never stops later
chunks); `totalClosed` is exactly the summed size of the confirmed
chunks; the recovered amount is `totalClosed` times the fixed reserve
constant; and concretely, with 13 holdings (chunks of 5, 5, 3) where
chunk 2 of 3 fails, the closed count is 8 (chunks 1 and 3 only) and
chunk 3 is still attempted (three recorded outcomes). -/
theorem claim_C5 (submitOk : Nat → Bool) (accounts : List TokenAccount) :
    (batchProcess submitOk accounts).chunkOutcomes
      = (List.range (partitionChunks 5 accounts).length).map submitOk ∧
    (batchProcess submitOk accounts).totalClosed
      = ((((partitionChunks 5 accounts).enumFrom 0).filter fun p => submitOk p.1).map
          fun p => p.2.length).sum ∧
    (batchProcess submitOk accounts).totalRecoveredLamports
      = (batchProcess submitOk accounts).totalClosed * RENT_EXEMPT_LAMPORTS ∧
    batchProcess (fun i => !(i == 1)) (List.replicate 13 dummyAccount)
      = ⟨8, 8 * RENT_EXEMPT_LAMPORTS, [true, false, true]⟩ := by
  refine ⟨?_, ?_, ?_, ?_⟩
  · rw [batchProcess, batchRunGo_outcomes]
    simp
  · rw [batchProcess, batchRunGo_closed]
  · rw [batchProcess, batchRunGo_recovered]
  · simp [batchProcess, partitionChunks, List.replicate, batchRunGo,
      RENT_EXEMPT_LAMPORTS]

/-- Helper: with `processAll` set the loop realizes the `AUTO_ALL` state. -/
theorem interactiveGo_auto (accounts : List TokenAccount) :
    ∀ (inputs : List String) (sr : Bool),
      interactiveGo accounts inputs sr true = specMachine accounts inputs .AUTO_ALL := by
  induction accounts with
  | nil => intro inputs sr; rfl
  | cons a rest ih =>
    intro inputs sr
    simp [interactiveGo, specMachine, ih]

/-- Helper: with `skipRemaining` set the loop realizes the `SKIP_ALL` state. -/
theorem interactiveGo_skip (accounts : List TokenAccount) :
    ∀ inputs : List String,
      interactiveGo accounts inputs true false = specMachine accounts inputs .SKIP_ALL := by
  induction accounts with
  | nil => intro inputs; rfl
  | cons a rest ih =>
    intro inputs
    simp [interactiveGo, specMachine, ih]

/-- Helper: with both flags clear the loop realizes the `ASK` state. -/
theorem interactiveGo_ask (accounts : List TokenAccount) :
    ∀ inputs : List String,
      interactiveGo accounts inputs false false = specMachine accounts inputs .ASK := by
  induction accounts with
  | nil => intro inputs; rfl
  | cons a rest ih =>
    intro inputs
    simp only [interactiveGo, specMachine, Bool.false_eq_true, if_false,
      Bool.not_false, if_true]
    split_ifs with h1 h2 h3
    · rw [ih]
    · rw [interactiveGo_auto]
    · rw [interactiveGo_skip]
    · rw [ih]

/-- Helper: the loop always visits every account (iteration completes in
every state). -/
theorem interactiveGo_length (accounts : List TokenAccount) :
    ∀ (inputs : List String) (sr pa : Bool),
      (interactiveGo accounts inputs sr pa).length = accounts.length := by
  induction accounts with
  | nil => intro inputs sr pa; rfl
  | cons a rest ih =>
    intro inputs sr pa
    simp only [interactiveGo]
    split_ifs <;> simp [ih]

/-- C6: the interactive processor on any holding list and finite input
sequence realizes the spec's three-state machine started in `ASK`
(`yes` processes and stays, `all` processes and switches to auto-all,
`quit` skips the current and all remaining holdings, anything else
skips only the current holding), iteration always completes (one
decision per holding), and the two reference traces hold: 4 holdings
with inputs `[n, y, a]` process `{2,3,4}` and skip `{1}`; inputs
`[y, q]` process `{1}` and skip `{2,3,4}`. -/
theorem claim_C6 (accounts : List TokenAccount) (inputs : List String) :
    interactiveClean accounts inputs = specMachine accounts inputs .ASK ∧
    (interactiveClean accounts inputs).length = accounts.length ∧
    interactiveClean [dummyAccount, dummyAccount, dummyAccount, dummyAccount]
      ["n", "y", "a"] = [false, true, true, true] ∧
    interactiveClean [dummyAccount, dummyAccount, dummyAccount, dummyAccount]
      ["y", "q"] = [true, false, false, false] :=
  ⟨interactiveGo_ask accounts inputs,
   interactiveGo_length accounts inputs false false,
   by decide, by decide⟩

/-- Helper: the constructed account's stored `isCloseable` flag is the
zero-balance test. -/
theorem mkTokenAccount_isCloseable (lookup : String → Option TokenMetadata)
    (r : RawAccount) :
    (mkTokenAccount lookup r).isCloseable = (r.balance == 0) := rfl

/-- Helper: construction preserves the raw balance. -/
theorem mkTokenAccount_balance (lookup : String → Option TokenMetadata)
    (r : RawAccount) :
    (mkTokenAccount lookup r).balance = r.balance := rfl

/-- C10: the clean operation's processing sequence is exactly the
zero-balance accounts in original ledger-query order followed by — only
when the burn flag is set — the nonzero-balance HIGH/MEDIUM accounts in
original ledger-query order (no re-sorting by risk tier); consequently
without the burn flag every processed account has raw balance zero. -/
theorem claim_C10 (lookup : String → Option TokenMetadata)
    (raws : List RawAccount) (burn : Bool) :
    toProcessOf burn (raws.map (mkTokenAccount lookup))
      = (raws.map (mkTokenAccount lookup)).filter (fun a => a.balance == 0)
        ++ (if burn then
              (raws.map (mkTokenAccount lookup)).filter
                (fun a => !(a.balance == 0)
                  && (a.riskLevel == .HIGH || a.riskLevel == .MEDIUM))
            else []) ∧
    (burn = false →
      ∀ a ∈ toProcessOf burn (raws.map (mkTokenAccount lookup)), a.balance = 0) := by
  have hclose : closeableOf (raws.map (mkTokenAccount lookup))
      = (raws.map (mkTokenAccount lookup)).filter (fun a => a.balance == 0) := by
    refine List.filter_congr fun a ha => ?_
    obtain ⟨r, _, rfl⟩ := List.mem_map.mp ha
    rfl
  have hburn : burnableOf burn (raws.map (mkTokenAccount lookup))
      = (if burn then
          (raws.map (mkTokenAccount lookup)).filter
            (fun a => !(a.balance == 0)
              && (a.riskLevel == .HIGH || a.riskLevel == .MEDIUM))
         else []) := by
    rw [burnableOf]
    split_ifs with hb
    · refine List.filter_congr fun a ha => ?_
      obtain ⟨r, _, rfl⟩ := List.mem_map.mp ha
      rfl
    · rfl
  constructor
  · rw [toProcessOf, hclose, hburn]
  · intro hb a ha
    rw [toProcessOf, hclose, hburn, hb] at ha
    simp only [if_neg Bool.false_ne_true, List.append_nil] at ha
    simpa using List.of_mem_filter ha

/-- Witness for C10: a concrete zero-balance account is selected without
the burn flag and indeed has balance zero. -/
theorem claim_C10_witness :
    (mkTokenAccount (fun _ => none) ⟨"a", "m", 0, 6⟩).balance = 0 := by
  have h := (claim_C10 (fun _ => none) [⟨"a", "m", 0, 6⟩] false).2 rfl
  exact h _ (by simp [toProcessOf, closeableOf, burnableOf, mkTokenAccount_isCloseable])

/-- C1: in every clean run that reaches the identity gate (dust to
process, not a dry run, credential loaded), a credential whose derived
public identity differs from the target wallet address aborts the run
with the authorization-mismatch error, and the run attempts zero
transaction submissions (no instruction is ever built). -/
theorem claim_C1 (wallet : String) (opts : CleanOptions)
    (lookup : String → Option TokenMetadata) (raws : List RawAccount)
    (keypairOf : String → Except KeypairError KeypairM)
    (confirmAnswer : String) (inputs : List String) (submitOk : Nat → Bool)
    (kpath : String) (kp : KeypairM)
    (hne : (toProcessOf opts.burn (raws.map (mkTokenAccount lookup))).isEmpty = false)
    (hdry : opts.dryRun = false)
    (hpath : opts.keypairPath = some kpath)
    (hload : keypairOf kpath = .ok kp)
    (hmismatch : kp.publicKey ≠ wallet) :
    cleanDust wallet opts lookup raws keypairOf confirmAnswer inputs submitOk
      = (.authMismatch kp.publicKey wallet, []) := by
  simp [cleanDust, hne, hdry, hpath, hload, hmismatch]

/-- Witness for C1: a mismatched credential (public key `OTHER` for
wallet `WALLET`) aborts with the mismatch outcome and no submissions. -/
theorem claim_C1_witness :
    cleanDust "WALLET" ⟨some "p", false, false, false, false⟩ (fun _ => none)
      [⟨"a", "m", 0, 6⟩] (fun _ => .ok ⟨"OTHER"⟩) "" [] (fun _ => true)
      = (.authMismatch "OTHER" "WALLET", []) := by
  refine claim_C1 "WALLET" ⟨some "p", false, false, false, false⟩ (fun _ => none)
    [⟨"a", "m", 0, 6⟩] (fun _ => .ok ⟨"OTHER"⟩) "" [] (fun _ => true)
    "p" ⟨"OTHER"⟩ ?_ rfl rfl rfl (by decide)
  simp [toProcessOf, closeableOf, burnableOf, mkTokenAccount_isCloseable]

/-- C8: given the same scanner output, a dry run computes the exact same
classified, selected and ordered processing list as a live run and
attempts zero submissions, while the live (confirmed, non-interactive)
run batch-processes exactly that list — the only behavioural difference
is the submissions. -/
theorem claim_C8 (wallet : String) (opts : CleanOptions)
    (lookup : String → Option TokenMetadata) (raws : List RawAccount)
    (keypairOf : String → Except KeypairError KeypairM)
    (confirmAnswer : String) (inputs : List String) (submitOk : Nat → Bool)
    (kpath : String) (kp : KeypairM)
    (hne : (toProcessOf opts.burn (raws.map (mkTokenAccount lookup))).isEmpty = false)
    (hpath : opts.keypairPath = some kpath)
    (hload : keypairOf kpath = .ok kp)
    (hmatch : kp.publicKey = wallet)
    (hint : opts.interactive = false)
    (hyes : opts.yes = true) :
    cleanDust wallet { opts with dryRun := true } lookup raws keypairOf
        confirmAnswer inputs submitOk
      = (.dryRunPlan (toProcessOf opts.burn (raws.map (mkTokenAccount lookup))), []) ∧
    cleanDust wallet { opts with dryRun := false } lookup raws keypairOf
        confirmAnswer inputs submitOk
      = (.batchDone
          (batchProcess submitOk (toProcessOf opts.burn (raws.map (mkTokenAccount lookup)))),
         batchTxs kp.publicKey (toProcessOf opts.burn (raws.map (mkTokenAccount lookup)))) := by
  constructor
  · simp [cleanDust, hne]
  · simp [cleanDust, hne, hpath, hload, hmatch, hint, hyes]

/-- Witness for C8 on a concrete one-account wallet: the dry run plans
the same list the live run batch-processes, and submits nothing. -/
theorem claim_C8_witness :
    cleanDust "PK" ⟨some "p", true, true, false, false⟩ (fun _ => none)
      [⟨"a", "m", 0, 6⟩] (fun _ => .ok ⟨"PK"⟩) "" [] (fun _ => true)
      = (.dryRunPlan
          (toProcessOf false ([⟨"a", "m", 0, 6⟩] |>.map (mkTokenAccount fun _ => none))),
         []) ∧
    cleanDust "PK" ⟨some "p", true, false, false, false⟩ (fun _ => none)
      [⟨"a", "m", 0, 6⟩] (fun _ => .ok ⟨"PK"⟩) "" [] (fun _ => true)
      = (.batchDone
          (batchProcess (fun _ => true)
            (toProcessOf false ([⟨"a", "m", 0, 6⟩] |>.map (mkTokenAccount fun _ => none)))),
         batchTxs "PK"
          (toProcessOf false ([⟨"a", "m", 0, 6⟩] |>.map (mkTokenAccount fun _ => none)))) := by
  have h := claim_C8 "PK" ⟨some "p", true, true, false, false⟩ (fun _ => none)
    [⟨"a", "m", 0, 6⟩] (fun _ => .ok ⟨"PK"⟩) "" [] (fun _ => true) "p" ⟨"PK"⟩
    (by simp [toProcessOf, closeableOf, burnableOf, mkTokenAccount_isCloseable])
    rfl rfl rfl rfl rfl
  exact ⟨h.1, h.2⟩

/-- C9: the credential loader attempts the JSON byte-array encoding
first and the base58 string encoding second, returns the credential
from the first encoding that decodes to a valid secret key, and fails
with the invalid-format error if and only if neither encoding decodes. -/
theorem claim_C9 (jsonParseBytes b58decode : String → Option (List Nat))
    (fromSecretKey : List Nat → Option KeypairM) (text : String) :
    (∀ kp, (jsonParseBytes text).bind fromSecretKey = some kp →
      loadKeypair jsonParseBytes b58decode fromSecretKey (some text) = .ok kp) ∧
    ((jsonParseBytes text).bind fromSecretKey = none →
      ∀ kp, (b58decode text).bind fromSecretKey = some kp →
        loadKeypair jsonParseBytes b58decode fromSecretKey (some text) = .ok kp) ∧
    (loadKeypair jsonParseBytes b58decode fromSecretKey (some text)
        = .error .invalidKeypairFormat
      ↔ (jsonParseBytes text).bind fromSecretKey = none
          ∧ (b58decode text).bind fromSecretKey = none) := by
  refine ⟨fun kp h => ?_, fun h1 kp h2 => ?_, ?_⟩
  · simp [loadKeypair, h]
  · simp [loadKeypair, h1, h2]
  · constructor
    · intro h
      cases hj : (jsonParseBytes text).bind fromSecretKey with
      | some kp => simp [loadKeypair, hj] at h
      | none =>
        cases hb : (b58decode text).bind fromSecretKey with
        | some kp => simp [loadKeypair, hj, hb] at h
        | none => exact ⟨rfl, rfl⟩
    · rintro ⟨h1, h2⟩
      simp [loadKeypair, h1, h2]

/-- Concrete JSON-array decoder oracle for the C9 witness. -/
def jsonOracle : String → Option (List Nat) :=
  fun s => if s = "[1]" then some [1] else none

/-- Concrete base58 decoder oracle for the C9 witness. -/
def b58Oracle : String → Option (List Nat) :=
  fun s => if s = "KEY2" then some [2] else none

/-- Concrete secret-key validator oracle for the C9 witness. -/
def secretOracle : List Nat → Option KeypairM :=
  fun l => if l = [1] then some ⟨"PK1"⟩ else none

/-- Witness for C9: a file decoding under the first encoding loads that
credential; a file decoding under neither yields the invalid-format
error. -/
theorem claim_C9_witness :
    loadKeypair jsonOracle b58Oracle secretOracle (some "[1]") = .ok ⟨"PK1"⟩ ∧
    loadKeypair jsonOracle b58Oracle secretOracle (some "zz")
      = .error .invalidKeypairFormat :=
  ⟨(claim_C9 jsonOracle b58Oracle secretOracle "[1]").1 ⟨"PK1"⟩ (by decide),
   (claim_C9 jsonOracle b58Oracle secretOracle "zz").2.2.mpr ⟨by decide, by decide⟩⟩

end Dust
